import Mathlib

/-!
Verification of the Finance-Tracker core (src/main.py): the session ledger,
the balance engine (`calculate_current_balance`,
`create_balance_visualization`), the aggregation engine
(`create_expense_breakdown`) and the command handlers of `main`
(set-balance, add-expense, reset). Monetary amounts are embedded as
rationals, timestamps and dates as abstract naturals.
-/

namespace FinanceTracker

/-- A recorded expense: src/main.py `add_transaction` builds a dict with
`amount`, `description`, `timestamp` (wall-clock time of creation) and
`date` (calendar date of creation). -/
structure Transaction where
  amount : ℚ
  description : String
  timestamp : ℕ
  date : ℕ
  deriving DecidableEq

/-- The session ledger: the `st.session_state` fields set up by
src/main.py `initialize_session_state`. -/
structure Ledger where
  transactions : List Transaction
  initial_balance : ℚ
  is_initialized : Bool
  deriving DecidableEq

/-- src/main.py `initialize_session_state`: the fresh session state. -/
def initialize_session_state : Ledger :=
  { transactions := [], initial_balance := 0, is_initialized := false }

/-- The total of the transaction amounts (the `sum(... for ...)` loops in
src/main.py lines 105 and 258). -/
def sumAmounts (ts : List Transaction) : ℚ :=
  (ts.map (·.amount)).sum

/-- src/main.py `calculate_current_balance` (lines 100-106). -/
def calculate_current_balance (l : Ledger) : ℚ :=
  if !l.is_initialized then 0
  else l.initial_balance - sumAmounts l.transactions

/-- src/main.py `add_transaction` (lines 108-116): unconditionally appends
a transaction built from the amount, the description, the current time and
today's date. -/
def add_transaction (l : Ledger) (amount : ℚ) (description : String)
    (now today : ℕ) : Ledger :=
  { l with transactions := l.transactions ++
      [{ amount := amount, description := description,
         timestamp := now, date := today }] }

/-- The `balance_history` column built by the loop of src/main.py
`create_balance_visualization` (lines 124-131): it starts at the initial
balance and subtracts each transaction's amount cumulatively. -/
def balance_history (init : ℚ) : List Transaction → List ℚ
  | [] => [init]
  | t :: ts => init :: balance_history (init - t.amount) ts

/-- src/main.py `create_balance_visualization` (lines 118-173): `none` when
there are no transactions; otherwise the chart's rows, each a
(date, balance) pair. The dates column starts with the first transaction's
date and then repeats each transaction's date; the balances column is
`balance_history`; the `Transaction` (index) column of the DataFrame is the
row's position in the returned list. -/
def create_balance_visualization (l : Ledger) : Option (List (ℕ × ℚ)) :=
  match l.transactions with
  | [] => none
  | t :: ts =>
      some ((t.date :: (t :: ts).map (·.date)).zip
        (balance_history l.initial_balance (t :: ts)))

/-- One step of the grouping-dict update of src/main.py
`create_expense_breakdown` (lines 182-187): add `amt` to the entry for
`desc` when present, else append a new entry (a Python dict keeps insertion
order and holds each key once). -/
def insertGroup : List (String × ℚ) → String → ℚ → List (String × ℚ)
  | [], desc, amt => [(desc, amt)]
  | (k, v) :: rest, desc, amt =>
      if k = desc then (k, v + amt) :: rest
      else (k, v) :: insertGroup rest desc amt

/-- The `expense_data` dict built by the loop of
src/main.py `create_expense_breakdown`. -/
def groupExpenses (ts : List Transaction) : List (String × ℚ) :=
  ts.foldl (fun g t => insertGroup g t.description t.amount) []

/-- src/main.py `create_expense_breakdown` (lines 175-200): `none` when
there are no transactions or the grouped dict has at most one entry;
otherwise the grouped (description, total) pairs. -/
def create_expense_breakdown (l : Ledger) : Option (List (String × ℚ)) :=
  if l.transactions.isEmpty then none
  else
    let g := groupExpenses l.transactions
    if 1 < g.length then some g else none

/-- The value a grouping dict holds for a key, `0` when absent. -/
def lookup0 : List (String × ℚ) → String → ℚ
  | [], _ => 0
  | (k, v) :: rest, d => if k = d then v else lookup0 rest d

/-- The keys of a grouping dict, in insertion order. -/
def keys (g : List (String × ℚ)) : List String :=
  g.map (·.1)

/-- The ledger errors of the spec's command boundary. -/
inductive LedgerError where
  | NotInitialized
  | InvalidAmount
  | AlreadyInitialized
  deriving DecidableEq

/-- The set-balance handler of src/main.py `main` (lines 281-303): the
initial-balance form is only rendered while the session is uninitialized, so
a set-balance command on an initialized ledger is rejected without effect
(`AlreadyInitialized`); a non-positive amount is refused with the
"enter a positive amount" error (`InvalidAmount`); otherwise the balance is
stored and the session marked initialized. -/
def set_initial_balance (l : Ledger) (amount : ℚ) :
    Except LedgerError Ledger :=
  if l.is_initialized then .error .AlreadyInitialized
  else if 0 < amount then
    .ok { l with initial_balance := amount, is_initialized := true }
  else .error .InvalidAmount

/-- The description recorded by the add-expense handler (src/main.py
line 347): the typed text when non-empty; the widget's empty string (which
also stands for an absent argument) falls back to "General Expense". -/
def effDescription : Option String → String
  | none => "General Expense"
  | some s => if s = "" then "General Expense" else s

/-- The add-expense handler of src/main.py `main` (lines 305-361): the
expense form is only rendered once the session is initialized, so an
add-expense command on an uninitialized ledger is rejected without effect
(`NotInitialized`); a non-positive amount is refused (`InvalidAmount`);
otherwise `add_transaction` appends the new expense. -/
def add_expense (l : Ledger) (amount : ℚ) (description : Option String)
    (now today : ℕ) : Except LedgerError Ledger :=
  if !l.is_initialized then .error .NotInitialized
  else if 0 < amount then
    .ok (add_transaction l amount (effDescription description) now today)
  else .error .InvalidAmount

/-- The reset handler of src/main.py `main` (lines 273-278): clears the
transactions, the initial balance and the initialized flag. -/
def reset (_l : Ledger) : Ledger :=
  { transactions := [], initial_balance := 0, is_initialized := false }

/-- src/main.py keeps the whole ledger in `st.session_state`; a read-only
snapshot is the triple of its fields. -/
def snapshot (l : Ledger) : Bool × ℚ × List Transaction :=
  (l.is_initialized, l.initial_balance, l.transactions)

/-- A user command forwarded by the presentation layer. -/
inductive Cmd where
  | setBalance (amount : ℚ)
  | addExpense (amount : ℚ) (description : Option String) (now today : ℕ)
  | doReset

/-- Running one user command against the session state: a failed command
only shows an error message and leaves the state unchanged. -/
def applyCmd (l : Ledger) : Cmd → Ledger
  | .setBalance a =>
      match set_initial_balance l a with
      | .ok l2 => l2
      | .error _ => l
  | .addExpense a d n t =>
      match add_expense l a d n t with
      | .ok l2 => l2
      | .error _ => l
  | .doReset => reset l

/-- The session states reachable from a fresh session through the command
handlers. -/
inductive Reachable : Ledger → Prop
  | init : Reachable initialize_session_state
  | step {l : Ledger} (c : Cmd) : Reachable l → Reachable (applyCmd l c)

/-- Shared invariant: every reachable uninitialized session state still has
the fresh session's zero balance and empty transaction list (set-balance
errors leave the state unchanged, a successful set-balance or add-expense
leaves the state initialized, and reset restores the fresh state). -/
theorem reachable_uninit {l : Ledger} (hr : Reachable l) :
    l.is_initialized = false → l.initial_balance = 0 ∧ l.transactions = [] := by
  induction hr with
  | init => exact fun _ => ⟨rfl, rfl⟩
  | @step l' c hr ih =>
    intro h
    cases c with
    | setBalance a =>
      by_cases hi : l'.is_initialized = true
      · have hse : set_initial_balance l' a = .error .AlreadyInitialized := by
          simp [set_initial_balance, hi]
        simp only [applyCmd, hse] at h ⊢
        exact ih h
      · have hf : l'.is_initialized = false := by
          cases hb : l'.is_initialized <;> simp_all
        by_cases hpos : 0 < a
        · have hse : set_initial_balance l' a =
              .ok { l' with initial_balance := a, is_initialized := true } := by
            simp [set_initial_balance, hf, hpos]
          simp only [applyCmd, hse] at h
          simp at h
        · have hse : set_initial_balance l' a = .error .InvalidAmount := by
            simp [set_initial_balance, hf, hpos]
          simp only [applyCmd, hse] at h ⊢
          exact ih h
    | addExpense a d n t =>
      by_cases hi : l'.is_initialized = true
      · by_cases hpos : 0 < a
        · have hae : add_expense l' a d n t =
              .ok (add_transaction l' a (effDescription d) n t) := by
            simp [add_expense, hi, hpos]
          simp only [applyCmd, hae] at h
          simp [add_transaction, hi] at h
        · have hae : add_expense l' a d n t = .error .InvalidAmount := by
            simp [add_expense, hi, hpos]
          simp only [applyCmd, hae] at h ⊢
          exact ih h
      · have hf : l'.is_initialized = false := by
          cases hb : l'.is_initialized <;> simp_all
        have hae : add_expense l' a d n t = .error .NotInitialized := by
          simp [add_expense, hf]
        simp only [applyCmd, hae] at h ⊢
        exact ih h
    | doReset => exact ⟨rfl, rfl⟩

/-- C1: `calculate_current_balance` returns 0 on an uninitialized session
and otherwise the initial balance minus the sum of all transaction amounts;
there is no clamping at zero — a reachable state (set balance 100, spend
150) has a negative current balance. -/
theorem calculate_current_balance_spec :
    (∀ l : Ledger, calculate_current_balance l =
      if l.is_initialized then l.initial_balance - sumAmounts l.transactions
      else 0) ∧
    ∃ l : Ledger, Reachable l ∧ calculate_current_balance l < 0 := by
  constructor
  · intro l
    by_cases hi : l.is_initialized = true <;> simp [calculate_current_balance, hi]
  · refine ⟨applyCmd (applyCmd initialize_session_state (.setBalance 100))
      (.addExpense 150 (some "Rent") 0 0),
      Reachable.step _ (Reachable.step _ Reachable.init), ?_⟩
    norm_num [applyCmd, set_initial_balance, add_expense, add_transaction,
      calculate_current_balance, sumAmounts, initialize_session_state]

/-- C4: an add-expense command on an uninitialized session fails with
`NotInitialized`, leaves the state unchanged, and (on any reachable
uninitialized state) the transaction list is empty. -/
theorem add_expense_not_initialized (l : Ledger) (a : ℚ) (d : Option String)
    (n t : ℕ) (h : l.is_initialized = false) :
    add_expense l a d n t = .error .NotInitialized ∧
    applyCmd l (.addExpense a d n t) = l ∧
    (Reachable l → l.transactions = []) := by
  have hae : add_expense l a d n t = .error .NotInitialized := by
    simp [add_expense, h]
  exact ⟨hae, by simp only [applyCmd, hae], fun hr => (reachable_uninit hr h).2⟩

/-- Witness for C4 at the fresh session state and amount 5. -/
theorem add_expense_not_initialized_witness :
    add_expense initialize_session_state 5 none 0 0 = .error .NotInitialized ∧
    applyCmd initialize_session_state (.addExpense 5 none 0 0) =
      initialize_session_state ∧
    (Reachable initialize_session_state →
      initialize_session_state.transactions = []) :=
  add_expense_not_initialized initialize_session_state 5 none 0 0 rfl

/-- C5: a set-balance command with a non-positive amount on an uninitialized
session fails with `InvalidAmount` and leaves the state unchanged, so the
session stays uninitialized and the balance is not set. -/
theorem set_initial_balance_nonpositive (l : Ledger) (a : ℚ)
    (h : l.is_initialized = false) (ha : a ≤ 0) :
    set_initial_balance l a = .error .InvalidAmount ∧
    applyCmd l (.setBalance a) = l := by
  have hse : set_initial_balance l a = .error .InvalidAmount := by
    simp [set_initial_balance, h, not_lt.mpr ha]
  exact ⟨hse, by simp only [applyCmd, hse]⟩

/-- Witness for C5 at the fresh session state and amount 0. -/
theorem set_initial_balance_nonpositive_witness :
    set_initial_balance initialize_session_state 0 = .error .InvalidAmount ∧
    applyCmd initialize_session_state (.setBalance 0) =
      initialize_session_state :=
  set_initial_balance_nonpositive initialize_session_state 0 rfl le_rfl

/-- C6: the reset handler produces exactly the fresh session state, so its
snapshot is (false, 0, []) and every query afterwards returns the same
result as on a freshly created session. -/
theorem reset_fresh (l : Ledger) :
    reset l = initialize_session_state ∧
    snapshot (reset l) = (false, 0, []) ∧
    calculate_current_balance (reset l) =
      calculate_current_balance initialize_session_state ∧
    create_balance_visualization (reset l) =
      create_balance_visualization initialize_session_state ∧
    create_expense_breakdown (reset l) =
      create_expense_breakdown initialize_session_state :=
  ⟨rfl, rfl, rfl, rfl, rfl⟩

/-- C7: a set-balance command on an already-initialized session is rejected
with `AlreadyInitialized` and leaves the state (balance and transactions)
unchanged. -/
theorem set_initial_balance_already (l : Ledger) (a : ℚ)
    (hi : l.is_initialized = true) :
    set_initial_balance l a = .error .AlreadyInitialized ∧
    applyCmd l (.setBalance a) = l := by
  have hse : set_initial_balance l a = .error .AlreadyInitialized := by
    simp [set_initial_balance, hi]
  exact ⟨hse, by simp only [applyCmd, hse]⟩

/-- Witness for C7 at an initialized session with balance 7. -/
theorem set_initial_balance_already_witness :
    set_initial_balance
      { transactions := [], initial_balance := 7, is_initialized := true } 3 =
      .error .AlreadyInitialized ∧
    applyCmd
      { transactions := [], initial_balance := 7, is_initialized := true }
      (.setBalance 3) =
      { transactions := [], initial_balance := 7, is_initialized := true } :=
  set_initial_balance_already
    { transactions := [], initial_balance := 7, is_initialized := true } 3 rfl

/-- C8: a successful add-expense appends exactly one transaction whose
description is the effective description: "General Expense" when the
argument is absent or the empty string, and the supplied string unchanged
otherwise. -/
theorem add_expense_description_spec (l : Ledger) (a : ℚ) (d : Option String)
    (n t : ℕ) (hi : l.is_initialized = true) (ha : 0 < a) :
    add_expense l a d n t = .ok { l with transactions := l.transactions ++
      [{ amount := a, description := effDescription d,
         timestamp := n, date := t }] } ∧
    effDescription none = "General Expense" ∧
    effDescription (some "") = "General Expense" ∧
    ∀ s, s ≠ "" → effDescription (some s) = s := by
  refine ⟨by simp [add_expense, add_transaction, hi, ha], rfl, rfl,
    fun s hs => by simp [effDescription, hs]⟩

/-- Witness for C8 at an initialized session, amount 2 and an absent
description. -/
theorem add_expense_description_spec_witness :
    add_expense
      { transactions := [], initial_balance := 9, is_initialized := true }
      2 none 0 0 =
      .ok (Ledger.mk [Transaction.mk 2 (effDescription none) 0 0] 9 true) ∧
    effDescription none = "General Expense" ∧
    effDescription (some "") = "General Expense" ∧
    ∀ s, s ≠ "" → effDescription (some s) = s :=
  add_expense_description_spec
    { transactions := [], initial_balance := 9, is_initialized := true }
    2 none 0 0 rfl (by norm_num)

/-- C10: in every reachable session state, an uninitialized session has a
zero balance and no transactions; equivalently a session with a nonzero
balance or any transaction is initialized. -/
theorem uninitialized_reachable_state_empty (l : Ledger) (hr : Reachable l) :
    (l.is_initialized = false →
      l.initial_balance = 0 ∧ l.transactions = []) ∧
    ((l.initial_balance ≠ 0 ∨ l.transactions ≠ []) →
      l.is_initialized = true) := by
  refine ⟨reachable_uninit hr, fun hne => ?_⟩
  by_contra hfalse
  have hf : l.is_initialized = false := by
    cases hb : l.is_initialized <;> simp_all
  rcases reachable_uninit hr hf with ⟨h1, h2⟩
  rcases hne with hc | hc
  · exact hc h1
  · exact hc h2

/-- Witness for C10 at the fresh session state. -/
theorem uninitialized_reachable_state_empty_witness :
    (initialize_session_state.is_initialized = false →
      initialize_session_state.initial_balance = 0 ∧
      initialize_session_state.transactions = []) ∧
    ((initialize_session_state.initial_balance ≠ 0 ∨
      initialize_session_state.transactions ≠ []) →
      initialize_session_state.is_initialized = true) :=
  uninitialized_reachable_state_empty initialize_session_state Reachable.init

/-- The balance-history column has one more entry than the ledger. -/
theorem balance_history_length (init : ℚ) (ts : List Transaction) :
    (balance_history init ts).length = ts.length + 1 := by
  induction ts generalizing init with
  | nil => rfl
  | cons t ts ih => simpa [balance_history] using ih (init - t.amount)

/-- Entry `i` of the balance-history column is the initial balance minus
the amounts of the first `i` transactions. -/
theorem balance_history_getElem? (init : ℚ) (ts : List Transaction) (i : ℕ)
    (h : i ≤ ts.length) :
    (balance_history init ts)[i]? = some (init - sumAmounts (ts.take i)) := by
  induction ts generalizing init i with
  | nil =>
    obtain rfl : i = 0 := Nat.le_zero.mp h
    simp [balance_history, sumAmounts]
  | cons t ts ih =>
    cases i with
    | zero => simp [balance_history, sumAmounts]
    | succ i =>
      have h2 : i ≤ ts.length := by simpa using h
      have hih := ih (init - t.amount) i h2
      simp only [balance_history, List.getElem?_cons_succ, hih,
        List.take_succ_cons]
      congr 1
      simp only [sumAmounts, List.map_cons, List.sum_cons]
      ring

/-- The chart of `create_balance_visualization` has one more row than the
ledger has transactions. -/
theorem cbv_length (l : Ledger) (pts : List (ℕ × ℚ))
    (hp : create_balance_visualization l = some pts) :
    pts.length = l.transactions.length + 1 := by
  rcases hl : l.transactions with _ | ⟨t0, ts0⟩
  · simp [create_balance_visualization, hl] at hp
  · simp only [create_balance_visualization, hl] at hp
    obtain rfl := Option.some.inj hp
    simp [List.length_zip, balance_history_length, hl]

/-- Row `i` of the chart of `create_balance_visualization` pairs the date
column's entry with the initial balance minus the amounts of the first `i`
transactions. -/
theorem cbv_getElem? (l : Ledger) (t0 : Transaction) (ts0 : List Transaction)
    (hl : l.transactions = t0 :: ts0) (pts : List (ℕ × ℚ))
    (hp : create_balance_visualization l = some pts) (i : ℕ)
    (h : i ≤ ts0.length + 1) :
    pts[i]? = some ((t0.date :: (t0 :: ts0).map (·.date)).getD i 0,
      l.initial_balance - sumAmounts ((t0 :: ts0).take i)) := by
  simp only [create_balance_visualization, hl] at hp
  obtain rfl := Option.some.inj hp
  rw [List.getElem?_zip_eq_some]
  constructor
  · have hb : i < (t0.date :: (t0 :: ts0).map (·.date)).length := by
      simp
      omega
    rw [List.getD_eq_getElem?_getD, List.getElem?_eq_getElem hb]
    rfl
  · exact balance_history_getElem? l.initial_balance (t0 :: ts0) i (by simpa)

/-- C2: the running-balance series is absent exactly on an empty ledger;
otherwise it has transactions.length + 1 rows, its first row carries the
first transaction's date and the initial balance, and each later row's
balance is the previous row's balance minus the corresponding transaction's
amount, in ledger order. -/
theorem create_balance_visualization_spec (l : Ledger) :
    (create_balance_visualization l = none ↔ l.transactions = []) ∧
    ∀ pts, create_balance_visualization l = some pts →
      pts.length = l.transactions.length + 1 ∧
      (∀ t0 ts0, l.transactions = t0 :: ts0 →
        pts.head? = some (t0.date, l.initial_balance)) ∧
      ∀ i p q tr, pts[i]? = some p → pts[i + 1]? = some q →
        l.transactions[i]? = some tr → q.2 = p.2 - tr.amount := by
  refine ⟨?_, ?_⟩
  · rcases hl : l.transactions with _ | ⟨t0, ts0⟩ <;>
      simp [create_balance_visualization, hl]
  · intro pts hpts
    obtain ⟨t0, ts0, hl⟩ : ∃ t0 ts0, l.transactions = t0 :: ts0 := by
      rcases hl2 : l.transactions with _ | ⟨t0, ts0⟩
      · simp [create_balance_visualization, hl2] at hpts
      · exact ⟨t0, ts0, rfl⟩
    refine ⟨cbv_length l pts hpts, ?_, ?_⟩
    · intro t1 ts1 h1
      rw [hl] at h1
      injection h1 with h1a h1b
      subst h1a
      have h0 := cbv_getElem? l t0 ts0 hl pts hpts 0 (Nat.zero_le _)
      rw [List.head?_eq_getElem?, h0]
      simp [List.getD, sumAmounts]
    · intro i p q tr hp hq htr
      rw [hl] at htr
      have hib : i < (t0 :: ts0).length := by
        by_contra hge
        rw [List.getElem?_eq_none (Nat.le_of_not_lt hge)] at htr
        exact absurd htr (by simp)
      have hi1 : i ≤ ts0.length + 1 := by
        simp at hib
        omega
      have hi2 : i + 1 ≤ ts0.length + 1 := by
        simp at hib
        omega
      have hpv := cbv_getElem? l t0 ts0 hl pts hpts i hi1
      have hqv := cbv_getElem? l t0 ts0 hl pts hpts (i + 1) hi2
      rw [hp] at hpv
      rw [hq] at hqv
      have hp2 : p.2 = l.initial_balance -
          sumAmounts ((t0 :: ts0).take i) := by
        rw [Option.some.inj hpv]
      have hq2 : q.2 = l.initial_balance -
          sumAmounts ((t0 :: ts0).take (i + 1)) := by
        rw [Option.some.inj hqv]
      have htake : (t0 :: ts0).take (i + 1) =
          (t0 :: ts0).take i ++ [tr] := by
        rw [List.take_succ, htr]
        rfl
      rw [hp2, hq2, htake]
      simp only [sumAmounts, List.map_append, List.sum_append,
        List.map_cons, List.map_nil, List.sum_cons, List.sum_nil]
      ring

/-- C9: on an initialized ledger whose series is present, the balance of
the last row of the running-balance series equals the current balance. -/
theorem series_last_balance (l : Ledger) (hi : l.is_initialized = true)
    (pts : List (ℕ × ℚ)) (hp : create_balance_visualization l = some pts) :
    ∃ p, pts.getLast? = some p ∧ p.2 = calculate_current_balance l := by
  obtain ⟨t0, ts0, hl⟩ : ∃ t0 ts0, l.transactions = t0 :: ts0 := by
    rcases hl2 : l.transactions with _ | ⟨t0, ts0⟩
    · simp [create_balance_visualization, hl2] at hp
    · exact ⟨t0, ts0, rfl⟩
  have hlast := cbv_getElem? l t0 ts0 hl pts hp (ts0.length + 1) le_rfl
  have hlen := cbv_length l pts hp
  rw [hl] at hlen
  refine ⟨((t0.date :: (t0 :: ts0).map (·.date)).getD (ts0.length + 1) 0,
    l.initial_balance - sumAmounts ((t0 :: ts0).take (ts0.length + 1))),
    ?_, ?_⟩
  · rw [List.getLast?_eq_getElem?, hlen]
    simpa using hlast
  · have htake : (t0 :: ts0).take (ts0.length + 1) = t0 :: ts0 := by
      simp
    simp [htake, calculate_current_balance, hi, hl]

/-- Witness for C9 at an initialized ledger holding one transaction of
amount 5 against an initial balance of 10. -/
theorem series_last_balance_witness :
    ∃ p, (([2, 2].zip
        (balance_history 10 [Transaction.mk 5 "Tea" 1 2])).getLast?) =
        some p ∧
      p.2 = calculate_current_balance
        (Ledger.mk [Transaction.mk 5 "Tea" 1 2] 10 true) :=
  series_last_balance (Ledger.mk [Transaction.mk 5 "Tea" 1 2] 10 true) rfl
    ([2, 2].zip (balance_history 10 [Transaction.mk 5 "Tea" 1 2])) rfl

/-- Inserting into a grouping dict adds the amount to the given key's total
and leaves every other key's total unchanged. -/
theorem lookup0_insertGroup (g : List (String × ℚ)) (d d' : String) (a : ℚ) :
    lookup0 (insertGroup g d a) d' =
      lookup0 g d' + if d = d' then a else 0 := by
  induction g with
  | nil => simp [insertGroup, lookup0]
  | cons kv rest ih =>
    obtain ⟨k, v⟩ := kv
    by_cases hkd : k = d
    · subst hkd
      by_cases hkd' : k = d'
      · subst hkd'
        simp [insertGroup, lookup0]
      · simp [insertGroup, lookup0, hkd']
    · by_cases hkd' : k = d'
      · have hdd : ¬ d = d' := fun h => hkd (hkd'.trans h.symm)
        subst hkd'
        simp [insertGroup, lookup0, hkd, hdd]
      · simp [insertGroup, lookup0, hkd, hkd', ih]

/-- Inserting into a grouping dict increases the total of all group sums by
the inserted amount. -/
theorem sum_insertGroup (g : List (String × ℚ)) (d : String) (a : ℚ) :
    ((insertGroup g d a).map (·.2)).sum = (g.map (·.2)).sum + a := by
  induction g with
  | nil => simp [insertGroup]
  | cons kv rest ih =>
    obtain ⟨k, v⟩ := kv
    simp only [insertGroup]
    split_ifs with hkd
    · simp only [List.map_cons, List.sum_cons]
      ring
    · simp only [List.map_cons, List.sum_cons, ih]
      ring

/-- Unfolding the key list of a grouping dict over its first entry. -/
theorem keys_cons (k : String) (v : ℚ) (rest : List (String × ℚ)) :
    keys ((k, v) :: rest) = k :: keys rest := rfl

/-- Inserting into a grouping dict keeps the key list unchanged when the key
is present and appends the key otherwise. -/
theorem keys_insertGroup (g : List (String × ℚ)) (d : String) (a : ℚ) :
    keys (insertGroup g d a) =
      if d ∈ keys g then keys g else keys g ++ [d] := by
  induction g with
  | nil => simp [insertGroup, keys]
  | cons kv rest ih =>
    obtain ⟨k, v⟩ := kv
    by_cases hkd : k = d
    · subst hkd
      have hstep : insertGroup ((k, v) :: rest) k a = (k, v + a) :: rest := by
        simp [insertGroup]
      rw [hstep, keys_cons, keys_cons,
        if_pos (List.mem_cons_self k (keys rest))]
    · have hstep : insertGroup ((k, v) :: rest) d a =
          (k, v) :: insertGroup rest d a := by
        simp [insertGroup, hkd]
      rw [hstep, keys_cons, ih, keys_cons]
      by_cases hmem : d ∈ keys rest
      · rw [if_pos hmem, if_pos (List.mem_cons_of_mem _ hmem)]
      · have hdk : d ∉ k :: keys rest := by
          intro hc
          rcases List.mem_cons.mp hc with h | h
          · exact hkd h.symm
          · exact hmem h
        rw [if_neg hmem, if_neg hdk, List.cons_append]

/-- Membership in the keys of the grouping fold: a key occurs exactly when
it was already in the accumulator or is the description of one of the
folded transactions. -/
theorem mem_keys_foldl (ts : List Transaction) (g : List (String × ℚ))
    (d : String) :
    d ∈ keys (ts.foldl (fun g t => insertGroup g t.description t.amount) g) ↔
      d ∈ keys g ∨ d ∈ ts.map (·.description) := by
  induction ts generalizing g with
  | nil => simp
  | cons t ts ih =>
    rw [List.foldl_cons, ih, keys_insertGroup]
    by_cases hmem : t.description ∈ keys g
    · rw [if_pos hmem]
      simp only [List.map_cons, List.mem_cons]
      constructor
      · rintro (h | h)
        · exact Or.inl h
        · exact Or.inr (Or.inr h)
      · rintro (h | h | h)
        · exact Or.inl h
        · exact Or.inl (h ▸ hmem)
        · exact Or.inr h
    · rw [if_neg hmem]
      simp only [List.mem_append, List.mem_singleton, List.map_cons,
        List.mem_cons]
      tauto

/-- The grouping fold keeps the key list free of duplicates. -/
theorem nodup_keys_foldl (ts : List Transaction) (g : List (String × ℚ))
    (hg : (keys g).Nodup) :
    (keys
      (ts.foldl (fun g t => insertGroup g t.description t.amount) g)).Nodup
    := by
  induction ts generalizing g with
  | nil => exact hg
  | cons t ts ih =>
    rw [List.foldl_cons]
    apply ih
    rw [keys_insertGroup]
    split_ifs with hmem
    · exact hg
    · refine hg.append (List.nodup_singleton _) ?_
      intro x hx hx'
      rw [List.mem_singleton] at hx'
      subst hx'
      exact hmem hx

/-- The grouping dict has one entry per distinct description. -/
theorem groupExpenses_length (ts : List Transaction) :
    (groupExpenses ts).length =
      ((ts.map (·.description)).toFinset).card := by
  have hnodup : (keys (groupExpenses ts)).Nodup :=
    nodup_keys_foldl ts [] (by simp [keys])
  have hmem : ∀ d, d ∈ keys (groupExpenses ts) ↔
      d ∈ ts.map (·.description) := by
    intro d
    have h := mem_keys_foldl ts [] d
    simpa [keys, groupExpenses] using h
  have hfin : (keys (groupExpenses ts)).toFinset =
      (ts.map (·.description)).toFinset := by
    ext d
    simp only [List.mem_toFinset]
    exact hmem d
  have h1 := List.toFinset_card_of_nodup hnodup
  have h2 : (keys (groupExpenses ts)).length = (groupExpenses ts).length := by
    simp [keys]
  rw [← h2, ← h1, hfin]

/-- The grouping fold's total for a key is the accumulator's total plus the
amounts of the folded transactions carrying exactly that description. -/
theorem lookup0_foldl (ts : List Transaction) (g : List (String × ℚ))
    (d : String) :
    lookup0 (ts.foldl (fun g t => insertGroup g t.description t.amount) g) d
      = lookup0 g d +
        sumAmounts (ts.filter (fun t => t.description == d)) := by
  induction ts generalizing g with
  | nil => simp [sumAmounts]
  | cons t ts ih =>
    rw [List.foldl_cons, ih, lookup0_insertGroup]
    by_cases hd : t.description = d
    · have hfil : List.filter (fun t => t.description == d) (t :: ts) =
          t :: List.filter (fun t => t.description == d) ts := by
        simp [List.filter_cons, hd]
      rw [hfil, if_pos hd]
      simp only [sumAmounts, List.map_cons, List.sum_cons]
      ring
    · have hfil : List.filter (fun t => t.description == d) (t :: ts) =
          List.filter (fun t => t.description == d) ts := by
        simp [List.filter_cons, hd]
      rw [hfil, if_neg hd]
      ring

/-- The grouping fold preserves the total amount. -/
theorem sum_foldl (ts : List Transaction) (g : List (String × ℚ)) :
    ((ts.foldl (fun g t => insertGroup g t.description t.amount) g).map
      (·.2)).sum = (g.map (·.2)).sum + sumAmounts ts := by
  induction ts generalizing g with
  | nil => simp [sumAmounts]
  | cons t ts ih =>
    rw [List.foldl_cons, ih, sum_insertGroup]
    simp only [sumAmounts, List.map_cons, List.sum_cons]
    ring

/-- C3: the expense breakdown is absent exactly when the ledger is empty or
holds fewer than 2 distinct descriptions; when present, each group's total
is the sum of the amounts of the transactions with exactly that description
(case-sensitive, untrimmed string equality), and the group totals sum to
the total of all transaction amounts. -/
theorem create_expense_breakdown_spec (l : Ledger) :
    (create_expense_breakdown l = none ↔
      l.transactions = [] ∨
        ((l.transactions.map (·.description)).toFinset).card < 2) ∧
    ∀ g, create_expense_breakdown l = some g →
      (∀ d, lookup0 g d =
        sumAmounts (l.transactions.filter (fun t => t.description == d))) ∧
      (g.map (·.2)).sum = sumAmounts l.transactions := by
  constructor
  · rcases hl : l.transactions with _ | ⟨t0, ts0⟩
    · simp [create_expense_breakdown, hl]
    · have hlen := groupExpenses_length l.transactions
      rw [hl] at hlen
      simp only [create_expense_breakdown, hl, List.isEmpty_cons,
        Bool.false_eq_true, if_false]
      by_cases hgt : 1 < (groupExpenses (t0 :: ts0)).length
      · rw [if_pos hgt]
        constructor
        · intro h
          exact (Option.some_ne_none _ h).elim
        · rintro (h | h)
          · exact (List.cons_ne_nil _ _ h).elim
          · rw [hlen] at hgt
            omega
      · rw [if_neg hgt]
        constructor
        · intro _
          right
          rw [← hlen]
          omega
        · intro _
          rfl
  · intro g hg
    rcases hl : l.transactions with _ | ⟨t0, ts0⟩
    · simp [create_expense_breakdown, hl] at hg
    · simp only [create_expense_breakdown, hl, List.isEmpty_cons,
        Bool.false_eq_true, if_false] at hg
      split_ifs at hg with hgt
      obtain rfl := Option.some.inj hg
      constructor
      · intro d
        have h2 := lookup0_foldl (t0 :: ts0) [] d
        simpa [groupExpenses, lookup0] using h2
      · have h2 := sum_foldl (t0 :: ts0) []
        simpa [groupExpenses] using h2

end FinanceTracker
